import Mathlib

/-!
Verification development for the bank-statement RAG system.

Shallow embedding of the Schema Normalizer (src/components/upload.py),
the Query Filter Extractor and Hybrid Search Engine
(src/components/search.py), and the Embedding Indexer
(src/components/search.py, index_transactions).

Python strings are modeled as Lean `String` (lists of characters);
the pandas parsing helpers (pd.to_datetime, pd.to_numeric) are external
library collaborators and are modeled by executable parsers over the
formats exercised by the repository; amounts are modeled as `Rat`
(Python floats on 2-decimal bank data are exact in binary-independent
rational arithmetic at the granularity the program relies on).
-/

namespace BankRag

/-! ## Character and string utilities (models of Python str methods) -/

/-- Python whitespace class: space, tab, newline, carriage return,
vertical tab, form feed.  Used by str.strip and the regex class. -/
def isSp (c : Char) : Bool :=
  c.toNat = 32 || c.toNat = 9 || c.toNat = 10 || c.toNat = 13 ||
  c.toNat = 11 || c.toNat = 12

/-- Remove leading whitespace characters. -/
def dropLead (cs : List Char) : List Char := cs.dropWhile isSp

/-- Python str.strip on a character list: remove leading and trailing
whitespace. -/
def stripList (cs : List Char) : List Char :=
  ((dropLead cs).reverse.dropWhile isSp).reverse

/-- Python str.strip. -/
def pyStrip (s : String) : String := ⟨stripList s.data⟩

/-- Python str.upper (basic-latin model, as the repository data is ASCII). -/
def pyUpper (s : String) : String := ⟨s.data.map Char.toUpper⟩

/-- Python str.lower (basic-latin model). -/
def pyLower (s : String) : String := ⟨s.data.map Char.toLower⟩

/-- Match a literal character sequence at the head of the input,
returning the remainder on success. -/
def matchLit : List Char → List Char → Option (List Char)
  | [], rest => some rest
  | _ :: _, [] => none
  | l :: ls, c :: cs => if c = l then matchLit ls cs else none

/-- Python substring test `needle in hay` (searched at every position). -/
def containsSub (hay needle : List Char) : Bool :=
  if (matchLit needle hay).isSome then true
  else
    match hay with
    | [] => false
    | _ :: t => containsSub t needle

/-- Substring test on Lean strings, with Python `in` semantics. -/
def pyContains (hay needle : String) : Bool := containsSub hay.data needle.data

/-! ## Calendar dates -/

/-- A calendar date as carried by datetime / pandas timestamps.
ISO-serialized dates compare lexicographically exactly as the
(year, month, day) lexicographic order used below. -/
structure Date where
  year : Int
  month : Nat
  day : Nat
deriving DecidableEq, Repr

/-- Leap-year rule of the Gregorian calendar. -/
def isLeap (y : Int) : Bool := y % 4 = 0 && (y % 100 ≠ 0 || y % 400 = 0)

/-- Days in a month. -/
def daysInMonth (y : Int) (m : Nat) : Nat :=
  if m = 2 then (if isLeap y then 29 else 28)
  else if m = 4 || m = 6 || m = 9 || m = 11 then 30
  else 31

/-- Lexicographic (chronological) order on dates, as a Boolean. -/
def dateLeB (a b : Date) : Bool :=
  decide (a.year < b.year) ||
  (decide (a.year = b.year) &&
    (decide (a.month < b.month) ||
      (decide (a.month = b.month) && decide (a.day ≤ b.day))))

/-- Day-of-week index with Monday = 0 (Python datetime.weekday),
via Zeller's congruence.  Only its type matters to the claims. -/
def weekdayNum (d : Date) : Nat :=
  let m : Int := if d.month ≤ 2 then (d.month : Int) + 12 else (d.month : Int)
  let y : Int := if d.month ≤ 2 then d.year - 1 else d.year
  let k : Int := y % 100
  let j : Int := y / 100
  let h : Int := ((d.day : Int) + (13 * (m + 1)) / 5 + k + k / 4 + j / 4 + 5 * j) % 7
  (((h + 5) % 7).toNat)

/-- English weekday name (Python day_name). -/
def dayName (d : Date) : String :=
  match weekdayNum d with
  | 0 => "Monday"
  | 1 => "Tuesday"
  | 2 => "Wednesday"
  | 3 => "Thursday"
  | 4 => "Friday"
  | 5 => "Saturday"
  | _ => "Sunday"

/-! ## Cell parsing (models of the pandas parsers used by upload.py)

A raw spreadsheet cell is `Option String`: `none` is a null (NaN)
cell, `some s` a textual cell. -/

/-- Digit run at the head of the input. -/
def digitSpan : List Char → List Char × List Char
  | [] => ([], [])
  | c :: cs =>
    if c.isDigit then
      let (d, r) := digitSpan cs
      (c :: d, r)
    else ([], c :: cs)

/-- Numeric value of a digit run. -/
def digitsToNat (ds : List Char) : Nat :=
  ds.foldl (fun n c => 10 * n + (c.toNat - 48)) 0

/-- Python astype(str): a null cell prints as the literal string "nan". -/
def astypeStr : Option String → String
  | none => "nan"
  | some s => s

/-- Unsigned decimal parse: digits with an optional fractional part,
as accepted by pd.to_numeric on this data. -/
def parseUnsigned (cs : List Char) : Option Rat :=
  let (ip, r1) := digitSpan cs
  match r1 with
  | [] => if ip = [] then none else some (mkRat (digitsToNat ip) 1)
  | '.' :: fp =>
    if fp.all (·.isDigit) && (ip ≠ [] || fp ≠ []) then
      some (mkRat (digitsToNat ip * 10 ^ fp.length + digitsToNat fp) (10 ^ fp.length))
    else none
  | _ => none

/-- Model of pd.to_numeric with errors="coerce" on a string cell:
whitespace-tolerant signed decimal; unparsable input and the string
"nan" (what astype(str) makes of a null) coerce to NaN, i.e. `none`. -/
def toNumeric (s : String) : Option Rat :=
  let cs := stripList s.data
  if cs = "nan".data then none
  else
    match cs with
    | '-' :: rest => (parseUnsigned rest).map Neg.neg
    | _ => parseUnsigned cs

/-- The regex replace r"[$,()]" -> "" applied by upload.py before
numeric parsing. -/
def stripMoneyChars (s : String) : String :=
  ⟨s.data.filter (fun c => !(c = '$' || c = ',' || c = '(' || c = ')'))⟩

/-- Model of pd.to_datetime(errors="coerce", dayfirst=True) on one cell,
over the formats exercised here: ISO "YYYY-MM-DD" and day-first
"DD/MM/YYYY"; anything else (and null) coerces to NaT, i.e. `none`.
The pandas parser is an external collaborator; the pipeline only relies
on it returning a date or NaT per cell. -/
def parseDateCell : Option String → Option Date
  | none => none
  | some s =>
    let cs := stripList s.data
    match cs with
    | [y1, y2, y3, y4, '-', m1, m2, '-', d1, d2] =>
      if [y1, y2, y3, y4, m1, m2, d1, d2].all (·.isDigit) then
        let y : Int := (digitsToNat [y1, y2, y3, y4] : Int)
        let m := digitsToNat [m1, m2]
        let d := digitsToNat [d1, d2]
        if 1 ≤ m && m ≤ 12 && 1 ≤ d && d ≤ daysInMonth y m then
          some ⟨y, m, d⟩
        else none
      else none
    | [d1, d2, '/', m1, m2, '/', y1, y2, y3, y4] =>
      if [y1, y2, y3, y4, m1, m2, d1, d2].all (·.isDigit) then
        let y : Int := (digitsToNat [y1, y2, y3, y4] : Int)
        let m := digitsToNat [m1, m2]
        let d := digitsToNat [d1, d2]
        if 1 ≤ m && m ≤ 12 && 1 ≤ d && d ≤ daysInMonth y m then
          some ⟨y, m, d⟩
        else none
      else none
    | _ => none

/-! ## Canonical transactions (upload.py) -/

/-- A standardized transaction row.  `date` and `amount` are optional
before the dropna step (pandas NaT / NaN); the derived fields are
populated by _clean_and_standardize. -/
structure Tx where
  date : Option Date
  description : String
  amount : Option Rat
  sourceFile : String
  month : Option (Int × Nat) := none
  year : Option Int := none
  dayOfWeek : String := ""
  isWeekend : Bool := false
  txType : String := ""
deriving DecidableEq, Repr

/-- A raw tabular file: header names and rows of cells aligned with the
header positionally. -/
structure RawTable where
  cols : List String
  rows : List (List (Option String))
deriving DecidableEq, Repr

/-- Cell of a row under a (normalized) column name, given the normalized
header. -/
def getCell (cols : List String) (row : List (Option String)) (col : String) :
    Option String :=
  match cols.indexOf? col with
  | none => none
  | some i => (row.getD i none)

/-- upload.py date column patterns. -/
def datePats : List String :=
  ["date", "transaction date", "posted date", "trans date", "posting date"]

/-- upload.py description column patterns. -/
def descPats : List String :=
  ["description", "desc", "memo", "transaction", "details", "payee", "merchant"]

/-- upload.py amount column patterns. -/
def amountPats : List String :=
  ["amount", "debit", "credit", "transaction amount", "value", "sum"]

/-- _find_column: first pattern (outer loop) with any matching column
(inner loop) wins; a pattern matches a column by substring containment. -/
def findColumn (cols : List String) : List String → Option String
  | [] => none
  | p :: ps =>
    match cols.find? (fun c => pyContains c p) with
    | some c => some c
    | none => findColumn cols ps

/-- Header normalization: df.columns.str.lower().str.strip(). -/
def normHeader (cols : List String) : List String :=
  cols.map (fun c => pyStrip (pyLower c))

/-- Row-wise standardization: the body of the DataFrame construction in
_standardize_columns, including the exact-name debit/credit override. -/
def rowToTx (cols : List String) (dateCol descCol amountCol : String)
    (useDebitCredit : Bool) (filename : String) (row : List (Option String)) :
    Tx :=
  let amountSingle := toNumeric (stripMoneyChars (astypeStr (getCell cols row amountCol)))
  let amount :=
    if useDebitCredit then
      -- pd.to_numeric(df["debit"], errors="coerce").fillna(0), same for credit;
      -- amount = credit - debit  (credits positive, debits negative)
      let debit := (toNumeric (astypeStr (getCell cols row "debit"))).getD 0
      let credit := (toNumeric (astypeStr (getCell cols row "credit"))).getD 0
      some (credit - debit)
    else amountSingle
  { date := parseDateCell (getCell cols row dateCol)
    description := astypeStr (getCell cols row descCol)
    amount := amount
    sourceFile := filename }

/-- Row admission: dropna(subset=["date", "amount"]) composed with the
filter description.str.strip() != "". -/
def admitTx (t : Tx) : Bool :=
  t.date.isSome && t.amount.isSome && decide (pyStrip t.description ≠ "")

/-- _standardize_columns: normalize header names, resolve the three
required columns by pattern priority, fail with the list of missing
field names otherwise, then standardize and admit rows. -/
def standardizeColumns (t : RawTable) (filename : String) :
    Except (List String) (List Tx) :=
  let cols := normHeader t.cols
  let dateCol := findColumn cols datePats
  let descCol := findColumn cols descPats
  let amountCol := findColumn cols amountPats
  match dateCol, descCol, amountCol with
  | some dc, some sc, some ac =>
    let useDC := cols.contains "debit" && cols.contains "credit"
    Except.ok (((t.rows.map (rowToTx cols dc sc ac useDC filename)).filter admitTx))
  | _, _, _ =>
    let missing :=
      (if dateCol = none then ["date"] else []) ++
      (if descCol = none then ["description"] else []) ++
      (if amountCol = none then ["amount"] else [])
    Except.error missing

/-! ## _clean_and_standardize (upload.py) -/

/-- Deduplication key: the (date, description, amount) triple. -/
def dedupKey (t : Tx) : Option Date × String × Option Rat :=
  (t.date, t.description, t.amount)

/-- drop_duplicates(subset=["date", "description", "amount"]): keep the
first occurrence of each key. -/
def dedupFirst : List Tx → List Tx :=
  go []
where
  go (seen : List (Option Date × String × Option Rat)) : List Tx → List Tx
    | [] => []
    | t :: ts =>
      if dedupKey t ∈ seen then go seen ts
      else t :: go (dedupKey t :: seen) ts

/-- sort_values("date") comparison: by date ascending, NaT last. -/
def txLeB (a b : Tx) : Bool :=
  match a.date, b.date with
  | none, none => true
  | none, some _ => false
  | some _, none => true
  | some d, some e => dateLeB d e

/-- The sort relation as a Prop. -/
def txLe (a b : Tx) : Prop := txLeB a b = true

instance : DecidableRel txLe := fun a b =>
  inferInstanceAs (Decidable (txLeB a b = true))

/-- Description cleaning: str.strip().str.upper(). -/
def normDescStr (s : String) : String := pyUpper (pyStrip s)

/-- Row with its description cleaned. -/
def normDescTx (t : Tx) : Tx := { t with description := normDescStr t.description }

/-- Derived-field computation: month period, year, day-of-week name,
weekend flag, and the sign-based transaction type ("Credit" iff
amount > 0, else "Debit"). -/
def addDerived (t : Tx) : Tx :=
  { t with
    month := t.date.map (fun d => (d.year, d.month))
    year := t.date.map (fun d => d.year)
    dayOfWeek := (t.date.map dayName).getD ""
    isWeekend := (t.date.map (fun d => decide (5 ≤ weekdayNum d))).getD false
    txType := if 0 < t.amount.getD 0 then "Credit" else "Debit" }

/-- _clean_and_standardize: deduplicate on (date, description, amount),
sort ascending by date, clean descriptions, derive calendar fields and
the transaction type. -/
def cleanAndStandardize (rows : List Tx) : List Tx :=
  ((List.insertionSort txLe (dedupFirst rows)).map normDescTx).map addDerived

/-! ## Query Filter Extractor (search.py, _extract_query_filters)

The six amount regexes share the shape
  keyword (\s+ keyword)* \s+ \$? NUMBER
with NUMBER = \d+(?:,\d+)*(?:\.\d{2})?.  They are embedded as an
executable scanner with re.search semantics: leftmost match, greedy
number capture. -/

/-- One or more whitespace characters (regex \s+), consumed greedily. -/
def matchSp1 : List Char → Option (List Char)
  | [] => none
  | c :: rest => if isSp c then some (rest.dropWhile isSp) else none

/-- Optional dollar sign (regex \$?). -/
def optDollar : List Char → List Char
  | '$' :: rest => rest
  | cs => cs

/-- Greedy (?:,\d+)* groups with explicit fuel (each iteration consumes
at least two characters, so fuel = input length always suffices);
returns captured text and remainder. -/
def commaGroupsF : Nat → List Char → List Char × List Char
  | 0, cs => ([], cs)
  | fuel + 1, cs =>
    match cs with
    | ',' :: rest =>
      match digitSpan rest with
      | ([], _) => ([], cs)
      | (d :: ds, r) =>
        let (g, r2) := commaGroupsF fuel r
        (',' :: ((d :: ds) ++ g), r2)
    | _ => ([], cs)

/-- Greedy (?:,\d+)* groups, returning captured text and remainder. -/
def commaGroups (cs : List Char) : List Char × List Char :=
  commaGroupsF cs.length cs

/-- Exactly-two-digit decimal tail (regex (?:\.\d{2})?). -/
def decPart (cs : List Char) : List Char × List Char :=
  match cs with
  | '.' :: d1 :: d2 :: rest =>
    if d1.isDigit && d2.isDigit then (['.', d1, d2], rest) else ([], cs)
  | _ => ([], cs)

/-- Greedy capture of \d+(?:,\d+)*(?:\.\d{2})? at the head of the input. -/
def matchNum (cs : List Char) : Option (List Char) :=
  match digitSpan cs with
  | ([], _) => none
  | (d :: ds, r1) =>
    let (grp, r2) := commaGroups r1
    let (dec, _) := decPart r2
    some ((d :: ds) ++ grp ++ dec)

/-- Python float(captured.replace(",", "")) on a capture of the number
regex: integer part plus an optional exactly-two-digit cents part. -/
def capturedToRat (ds : List Char) : Rat :=
  let noComma := ds.filter (fun c => c ≠ ',')
  let (ip, rest) := digitSpan noComma
  match rest with
  | '.' :: fp => mkRat (digitsToNat ip * 100 + digitsToNat fp) 100
  | _ => mkRat (digitsToNat ip) 1

/-- Match one amount pattern (its keyword words) anchored at the current
position: words separated by \s+, then \s+ \$? NUMBER. -/
def matchWordsAt : List (List Char) → List Char → Option Rat
  | [], cs =>
    -- after the final keyword and its \s+, an optional $ then the number
    (matchNum (optDollar cs)).map capturedToRat
  | w :: ws, cs => do
    let r1 ← matchLit w cs
    let r2 ← matchSp1 r1
    matchWordsAt ws r2

/-- re.search: try the pattern at every position, leftmost match wins. -/
def searchWords (ws : List (List Char)) : List Char → Option Rat
  | [] => matchWordsAt ws []
  | c :: cs =>
    match matchWordsAt ws (c :: cs) with
    | some v => some v
    | none => searchWords ws cs

/-- Which amount bound a pattern extracts. -/
inductive BoundKind where
  | minBound
  | maxBound
deriving DecidableEq, Repr

/-- The ordered amount patterns of _extract_query_filters: over / above /
more than set amount_min; under / below / less than set amount_max. -/
def amountPatterns : List (List String × BoundKind) :=
  [(["over"], .minBound),
   (["above"], .minBound),
   (["more", "than"], .minBound),
   (["under"], .maxBound),
   (["below"], .maxBound),
   (["less", "than"], .maxBound)]

/-- The pattern loop: first matching pattern wins, then break. -/
def firstAmountMatch (ql : List Char) :
    List (List String × BoundKind) → Option (BoundKind × Rat)
  | [] => none
  | (ws, k) :: rest =>
    match searchWords (ws.map String.data) ql with
    | some v => some (k, v)
    | none => firstAmountMatch ql rest

/-- A Query Constraint Set: at most one constraint per kind. -/
structure Filters where
  amountMin : Option Rat := none
  amountMax : Option Rat := none
  dateStart : Option Date := none
  dateEnd : Option Date := none
  year : Option Int := none
  txType : Option String := none
deriving DecidableEq, Repr

/-- First day of the previous calendar month:
(now.replace(day=1) - timedelta(days=1)).replace(day=1). -/
def prevMonthStart (now : Date) : Date :=
  if now.month = 1 then ⟨now.year - 1, 12, 1⟩ else ⟨now.year, now.month - 1, 1⟩

/-- Last day of the previous calendar month:
now.replace(day=1) - timedelta(days=1). -/
def prevMonthEnd (now : Date) : Date :=
  if now.month = 1 then ⟨now.year - 1, 12, 31⟩
  else ⟨now.year, now.month - 1, daysInMonth now.year (now.month - 1)⟩

/-- Credit keywords of the transaction-type heuristic. -/
def creditWords : List String := ["income", "deposit", "salary", "credit"]

/-- Debit keywords of the transaction-type heuristic. -/
def debitWords : List String := ["expense", "spending", "purchase", "debit"]

/-- The amount-filter phase of _extract_query_filters: at most one
bound is ever written (the pattern loop breaks at the first match). -/
def amountPhase (ql : List Char) : Filters :=
  match firstAmountMatch ql amountPatterns with
  | some (.minBound, v) => { amountMin := some v }
  | some (.maxBound, v) => { amountMax := some v }
  | none => {}

/-- The date-phrase phase of _extract_query_filters (mutually exclusive,
first phrase wins). -/
def datePhase (now : Date) (ql : List Char) (f : Filters) : Filters :=
  if containsSub ql "last month".data then
    { f with dateStart := some (prevMonthStart now),
             dateEnd := some (prevMonthEnd now) }
  else if containsSub ql "this month".data then
    { f with dateStart := some ⟨now.year, now.month, 1⟩,
             dateEnd := some now }
  else if containsSub ql "this year".data then
    { f with dateStart := some ⟨now.year, 1, 1⟩, dateEnd := some now }
  else if containsSub ql "last year".data then
    { f with year := some (now.year - 1) }
  else f

/-- The transaction-type phase of _extract_query_filters (credit
keywords checked first). -/
def typePhase (ql : List Char) (f : Filters) : Filters :=
  if creditWords.any (fun w => containsSub ql w.data) then
    { f with txType := some "Credit" }
  else if debitWords.any (fun w => containsSub ql w.data) then
    { f with txType := some "Debit" }
  else f

/-- _extract_query_filters: lowercase the query, extract at most one
amount bound (first pattern wins), then the mutually-exclusive date
phrases, then the transaction type. -/
def extractQueryFilters (now : Date) (query : String) : Filters :=
  let ql := (pyLower query).data
  typePhase ql (datePhase now ql (amountPhase ql))

/-! ## Hybrid Search Engine (search.py) -/

/-- Metadata record attached to each indexed document
(index_transactions).  The date is serialized as a zero-padded ISO
string at the index boundary; lexicographic order on those strings is
the chronological order on `Date` used here. -/
structure Meta where
  date : Date
  description : String
  amount : Rat
  month : Int × Nat
  year : Int
  txType : String
  sourceFile : String
  dayOfWeek : String
  isWeekend : Bool
deriving DecidableEq, Repr

/-- One native filter condition of the ChromaDB where clause. -/
inductive Cond where
  | amountGte (v : Rat)
  | amountLte (v : Rat)
  | dateGte (d : Date)
  | dateLte (d : Date)
  | yearEq (y : Int)
  | typeEq (t : String)
deriving DecidableEq, Repr

/-- _build_where_clause: the conjunction of native conditions, in source
order (amount bounds, date bounds, year, transaction type). -/
def buildWhereClause (f : Filters) : List Cond :=
  (match f.amountMin with | some v => [Cond.amountGte v] | none => []) ++
  (match f.amountMax with | some v => [Cond.amountLte v] | none => []) ++
  (match f.dateStart with | some d => [Cond.dateGte d] | none => []) ++
  (match f.dateEnd with | some d => [Cond.dateLte d] | none => []) ++
  (match f.year with | some y => [Cond.yearEq y] | none => []) ++
  (match f.txType with | some t => [Cond.typeEq t] | none => [])

/-- Index-side evaluation of one native condition on a document's
metadata.  Amount bounds compare the SIGNED amount. -/
def evalCond (m : Meta) : Cond → Bool
  | .amountGte v => decide (v ≤ m.amount)
  | .amountLte v => decide (m.amount ≤ v)
  | .dateGte d => dateLeB d m.date
  | .dateLte d => dateLeB m.date d
  | .yearEq y => decide (m.year = y)
  | .typeEq t => decide (m.txType = t)

/-- Conjunctive where clause. -/
def evalWhere (w : List Cond) (m : Meta) : Bool := w.all (evalCond m)

/-- Raw result payload of collection.query (ids, metadatas and distances
are lists with one entry per query text). -/
structure RawResults where
  ids : List (List String)
  metadatas : List (List Meta)
  distances : Option (List (List Rat))
deriving DecidableEq, Repr

/-- _results_to_dataframe: take metadatas[0] and distances[0] (defaulting
distances to 0 when absent or empty), attach similarity = 1 - distance,
sort descending by similarity. -/
def resultsToRows (r : RawResults) : List (Meta × Rat) :=
  match r.metadatas with
  | [] => []
  | ms :: _ =>
    if ms = [] then []
    else
      let ds :=
        match r.distances with
        | some (d :: _) => d
        | _ => List.replicate ms.length (0 : Rat)
      List.insertionSort (fun a b : Meta × Rat => b.2 ≤ a.2)
        ((ms.zip ds).map (fun p => (p.1, 1 - p.2)))

/-- _apply_query_filters: the deferred post-filter, evaluating amount
bounds against the ABSOLUTE value of the amount. -/
def applyQueryFilters (f : Filters) (rows : List (Meta × Rat)) :
    List (Meta × Rat) :=
  if rows = [] then rows
  else
    let r1 :=
      match f.amountMin with
      | some v => rows.filter (fun p => decide (v ≤ |p.1.amount|))
      | none => rows
    match f.amountMax with
    | some v => r1.filter (fun p => decide (|p.1.amount| ≤ v))
    | none => r1

/-- dict.update of caller-supplied filters over the extracted ones:
a caller-present key overrides; absent keys keep the extracted value. -/
def mergeFilters (extracted : Filters) : Option Filters → Filters
  | none => extracted
  | some c =>
    { amountMin := c.amountMin.orElse (fun _ => extracted.amountMin)
      amountMax := c.amountMax.orElse (fun _ => extracted.amountMax)
      dateStart := c.dateStart.orElse (fun _ => extracted.dateStart)
      dateEnd := c.dateEnd.orElse (fun _ => extracted.dateEnd)
      year := c.year.orElse (fun _ => extracted.year)
      txType := c.txType.orElse (fun _ => extracted.txType) }

/-- Outcome of a search call: the returned rows (with similarity) and
whether an error was signalled (st.error) alongside the empty frame. -/
structure SearchOutcome where
  rows : List (Meta × Rat)
  errored : Bool
deriving DecidableEq, Repr

/-- BankStatementRAG.search: uninitialized collection and index-side
failure both surface an error signal with an empty frame; no hits is a
silent empty success; otherwise convert hits and apply the deferred
filters.  The index call itself is passed in as an `Except`, modeling
the try/except around collection.query. -/
def search (collectionReady : Bool) (resp : Except String RawResults)
    (query : String) (callerFilters : Option Filters) (now : Date) :
    SearchOutcome :=
  if collectionReady = false then { rows := [], errored := true }
  else
    match resp with
    | .error _ => { rows := [], errored := true }
    | .ok results =>
      let ef := mergeFilters (extractQueryFilters now query) callerFilters
      if results.ids = [] ∨ results.ids.headD [] = [] then
        { rows := [], errored := false }
      else
        { rows := applyQueryFilters ef (resultsToRows results)
          errored := false }

/-- The index side of collection.query: return up to k documents
satisfying the native where clause.  Nearest-neighbor ranking comes from
the opaque embedding model; it is modeled as index order with distance
0, which fixes membership (the property the claims are about) while
leaving similarity ranking abstract. -/
def indexQuery (docs : List Meta) (w : List Cond) (k : Nat) : RawResults :=
  let hits := (docs.filter (evalWhere w)).take k
  { ids := [List.replicate hits.length "tx"]
    metadatas := [hits]
    distances := some [List.replicate hits.length (0 : Rat)] }

/-- End-to-end hybrid search against an in-memory index: extract
filters, build the native where clause, query the index capped at
min(n, 100), then post-filter (the composition performed by search). -/
def hybridSearch (docs : List Meta) (query : String) (now : Date)
    (nResults : Nat) : SearchOutcome :=
  let f := extractQueryFilters now query
  let w := buildWhereClause f
  search true (Except.ok (indexQuery docs w (min nResults 100))) query none now

/-! ## Embedding Indexer (search.py, index_transactions) -/

/-- An indexed document: its id, the semantic tags of the generated text
body (_create_document_text: polarity and magnitude), and the metadata
record. -/
structure Doc where
  id : String
  amountDesc : String
  amountSize : String
  meta : Meta
deriving DecidableEq, Repr

/-- Metadata built for a transaction row by index_transactions.  After
normalization every stored row carries a date; the defaults here are
unreachable on such rows. -/
def mkMeta (t : Tx) : Meta :=
  { date := t.date.getD ⟨1970, 1, 1⟩
    description := t.description
    amount := t.amount.getD 0
    month := t.month.getD (0, 0)
    year := t.year.getD 0
    txType := t.txType
    sourceFile := t.sourceFile
    dayOfWeek := t.dayOfWeek
    isWeekend := t.isWeekend }

/-- _create_document_text tags plus metadata for row index idx. -/
def mkDoc (idx : Nat) (t : Tx) : Doc :=
  { id := "tx_" ++ toString idx
    amountDesc := if 0 < t.amount.getD 0 then "income" else "expense"
    amountSize := if 100 < |t.amount.getD 0| then "large" else "small"
    meta := mkMeta t }

/-- collection.add called in batches of 100 (the fixed batch_size of
index_transactions); the final collection contents are the
concatenation of the batches. -/
def addInBatches (coll : List Doc) (docs : List Doc) : List Doc :=
  match docs with
  | [] => coll
  | d :: ds => addInBatches (coll ++ (d :: ds).take 100) ((d :: ds).drop 100)
termination_by docs.length
decreasing_by
  simp only [List.length_cons, List.length_drop]
  omega

/-- Session state of BankStatementRAG: the in-memory transaction store
and the vector index contents. -/
structure RAGState where
  store : List Tx
  index : List Doc
deriving Repr

/-- index_transactions: replace the store with (a copy of) the incoming
batch, then, only if the batch is nonempty, drop and rebuild the index
from the batch, adding documents in batches of 100.  Returns the success
flag. -/
def indexTransactions (s : RAGState) (batch : List Tx) : RAGState × Bool :=
  let s1 := { s with store := batch }
  if batch = [] then (s1, false)
  else
    let docs := (List.range batch.length).zip batch |>.map
      (fun p => mkDoc p.1 p.2)
    ({ s1 with index := addInBatches [] docs }, true)

instance {ε α : Type} [DecidableEq ε] [DecidableEq α] :
    DecidableEq (Except ε α) := fun a b =>
  match a, b with
  | .ok x, .ok y =>
    if h : x = y then isTrue (by rw [h])
    else isFalse (fun he => by cases he; exact h rfl)
  | .error e, .error f =>
    if h : e = f then isTrue (by rw [h])
    else isFalse (fun he => by cases he; exact h rfl)
  | .ok _, .error _ => isFalse (fun he => by cases he)
  | .error _, .ok _ => isFalse (fun he => by cases he)

/-! ## Concrete scenario inputs -/

/-- The C1 scenario store: transactions of amounts -150.00, -50.00 and
200.00, as indexed metadata records. -/
def c1Store : List Meta :=
  [{ date := ⟨2024, 1, 1⟩, description := "RENT", amount := -150,
     month := (2024, 1), year := 2024, txType := "Debit",
     sourceFile := "f.csv", dayOfWeek := "Monday", isWeekend := false },
   { date := ⟨2024, 1, 2⟩, description := "GROCERY", amount := -50,
     month := (2024, 1), year := 2024, txType := "Debit",
     sourceFile := "f.csv", dayOfWeek := "Tuesday", isWeekend := false },
   { date := ⟨2024, 1, 3⟩, description := "SALARY", amount := 200,
     month := (2024, 1), year := 2024, txType := "Credit",
     sourceFile := "f.csv", dayOfWeek := "Wednesday", isWeekend := false }]

/-- The C2 scenario spreadsheet: debit/credit columns named with an
"Amt" suffix, one row with Debit Amt = 45.00 and Credit Amt = 0. -/
def c2Table : RawTable :=
  ⟨["Posting Date", "Memo", "Debit Amt", "Credit Amt"],
   [[some "2024-01-15", some "COFFEE SHOP", some "45.00", some "0"]]⟩

/-- The C5 counterexample batch: same date and amount, descriptions
differing only in case. -/
def c5Batch : List Tx :=
  [{ date := some ⟨2024, 1, 1⟩, description := "a", amount := some 5,
     sourceFile := "f" },
   { date := some ⟨2024, 1, 1⟩, description := "A", amount := some 5,
     sourceFile := "f" }]

/-- The C6 counterexample spreadsheet: one row whose description cell is
null but whose date and amount parse. -/
def c6Table : RawTable :=
  ⟨["date", "description", "amount"],
   [[some "2024-01-15", none, some "5.00"]]⟩

/-- Key-distinctness relation used by deduplication. -/
def keyNe (a b : Tx) : Prop := dedupKey a ≠ dedupKey b

/-- The C3 witness spreadsheet: one well-formed row. -/
def c3Table : RawTable :=
  ⟨["Date", "Description", "Amount"],
   [[some "2024-01-15", some " salary ", some "2500.00"]]⟩

/-- The standardized (pre-clean) row of the C3 witness spreadsheet. -/
def c3RowRaw : Tx :=
  { date := some ⟨2024, 1, 15⟩, description := " salary ",
    amount := some 2500, sourceFile := "w.csv" }

/-- The fully normalized row of the C3 witness spreadsheet. -/
def c3Row : Tx :=
  { date := some ⟨2024, 1, 15⟩, description := "SALARY",
    amount := some 2500, sourceFile := "w.csv", month := some (2024, 1),
    year := some 2024, dayOfWeek := "Monday", isWeekend := false,
    txType := "Credit" }

/-! ## Claims -/

/-- Coercion of a valid scalar value round-trips through Char.ofNat. -/
theorem charOfNat_toNat (n : Nat) (h : n < 55296) :
    (Char.ofNat n).toNat = n := by
  have hv : n.isValidChar := Or.inl h
  rw [Char.ofNat, dif_pos hv]
  rfl

/-- Char.toUpper, stated as the ite it unfolds to. -/
theorem toUpper_eq_ite (c : Char) :
    Char.toUpper c =
      if c.toNat ≥ 97 ∧ c.toNat ≤ 122 then Char.ofNat (c.toNat - 32) else c :=
  rfl

/-- Uppercasing does not change whether a character is whitespace. -/
theorem isSp_toUpper (c : Char) : isSp c.toUpper = isSp c := by
  by_cases hc : c.toNat ≥ 97 ∧ c.toNat ≤ 122
  · rw [toUpper_eq_ite, if_pos hc]
    have h1 : (Char.ofNat (c.toNat - 32)).toNat = c.toNat - 32 :=
      charOfNat_toNat _ (by omega)
    have hL : isSp (Char.ofNat (c.toNat - 32)) = false := by
      simp only [isSp, h1, Bool.or_eq_false_iff, decide_eq_false_iff_not]
      omega
    have hR : isSp c = false := by
      simp only [isSp, Bool.or_eq_false_iff, decide_eq_false_iff_not]
      omega
    rw [hL, hR]
  · rw [toUpper_eq_ite, if_neg hc]

/-- Uppercasing is idempotent on characters. -/
theorem toUpper_toUpper (c : Char) : c.toUpper.toUpper = c.toUpper := by
  by_cases hc : c.toNat ≥ 97 ∧ c.toNat ≤ 122
  · have h0 : Char.toUpper c = Char.ofNat (c.toNat - 32) := by
      rw [toUpper_eq_ite, if_pos hc]
    have h1 : (Char.ofNat (c.toNat - 32)).toNat = c.toNat - 32 :=
      charOfNat_toNat _ (by omega)
    rw [h0, toUpper_eq_ite, if_neg (by rw [h1]; omega)]
  · have h0 : Char.toUpper c = c := by rw [toUpper_eq_ite, if_neg hc]
    rw [h0, h0]

/-- dropWhile is idempotent. -/
theorem dropWhile_idem {α : Type} (p : α → Bool) (l : List α) :
    (l.dropWhile p).dropWhile p = l.dropWhile p := by
  induction l with
  | nil => rfl
  | cons a t ih =>
    by_cases pa : p a = true
    · rw [List.dropWhile_cons_of_pos pa]
      exact ih
    · rw [List.dropWhile_cons_of_neg pa, List.dropWhile_cons_of_neg pa]

/-- A list fixed by dropLead has a non-whitespace head. -/
theorem head_not_sp_of_dropLead_eq (b : Char) (rest : List Char)
    (h : dropLead (b :: rest) = b :: rest) : isSp b = false := by
  by_cases hb : isSp b = true
  · exfalso
    unfold dropLead at h
    rw [List.dropWhile_cons_of_pos hb] at h
    have hlen := List.Sublist.length_le (List.dropWhile_sublist (p := isSp) (l := rest))
    have h2 := congrArg List.length h
    simp only [List.length_cons] at h2
    omega
  · simpa using hb

/-- Trailing strip yields a prefix-shaped decomposition. -/
theorem trail_strip_append (A : List Char) :
    ∃ t, ((A.reverse.dropWhile isSp).reverse) ++ t = A := by
  obtain ⟨t0, ht⟩ := List.dropWhile_suffix (l := A.reverse) isSp
  refine ⟨t0.reverse, ?_⟩
  have := congrArg List.reverse ht
  simpa using this

/-- If a list is fixed by the leading strip, so is its trailing strip. -/
theorem dropLead_trail_strip (A : List Char) (h : dropLead A = A) :
    dropLead ((A.reverse.dropWhile isSp).reverse) =
      (A.reverse.dropWhile isSp).reverse := by
  obtain ⟨t0, ht⟩ := trail_strip_append A
  cases hg : (A.reverse.dropWhile isSp).reverse with
  | nil => rfl
  | cons b u =>
    rw [hg] at ht
    have hA : A = b :: (u ++ t0) := by rw [← ht]; rfl
    rw [hA] at h
    have hb := head_not_sp_of_dropLead_eq b (u ++ t0) h
    unfold dropLead
    rw [List.dropWhile_cons_of_neg (by simp [hb])]

/-- stripList is idempotent. -/
theorem stripList_idem (l : List Char) :
    stripList (stripList l) = stripList l := by
  have hA : dropLead (dropLead l) = dropLead l := dropWhile_idem isSp l
  unfold stripList
  rw [dropLead_trail_strip (dropLead l) hA]
  rw [List.reverse_reverse, dropWhile_idem]

/-- stripList commutes with uppercasing. -/
theorem stripList_map_toUpper (l : List Char) :
    stripList (l.map Char.toUpper) = (stripList l).map Char.toUpper := by
  have hcomp : (isSp ∘ Char.toUpper) = isSp := by
    funext c
    exact isSp_toUpper c
  unfold stripList dropLead
  rw [List.dropWhile_map, hcomp, ← List.map_reverse, List.dropWhile_map, hcomp,
    ← List.map_reverse]

/-- pyStrip commutes with pyUpper. -/
theorem pyStrip_pyUpper (s : String) :
    pyStrip (pyUpper s) = pyUpper (pyStrip s) := by
  cases s with
  | mk data =>
    show String.mk (stripList (data.map Char.toUpper)) =
      String.mk ((stripList data).map Char.toUpper)
    rw [stripList_map_toUpper]

/-- pyStrip is idempotent. -/
theorem pyStrip_idem (s : String) : pyStrip (pyStrip s) = pyStrip s := by
  cases s with
  | mk data =>
    show String.mk (stripList (stripList data)) = String.mk (stripList data)
    rw [stripList_idem]

/-- pyUpper is idempotent. -/
theorem pyUpper_idem (s : String) : pyUpper (pyUpper s) = pyUpper s := by
  cases s with
  | mk data =>
    show String.mk ((data.map Char.toUpper).map Char.toUpper) =
      String.mk (data.map Char.toUpper)
    rw [List.map_map]
    congr 1
    exact List.map_congr_left (fun c _ => toUpper_toUpper c)

/-- The description normalization strip-then-upper is idempotent. -/
theorem normDescStr_idem (s : String) :
    normDescStr (normDescStr s) = normDescStr s := by
  unfold normDescStr
  rw [pyStrip_pyUpper, pyStrip_idem, pyUpper_idem]

/-- Uppercasing a nonempty string is nonempty. -/
theorem pyUpper_ne_empty (s : String) (h : s ≠ "") : pyUpper s ≠ "" := by
  cases s with
  | mk data =>
    cases data with
    | nil => exact absurd rfl h
    | cons c cs =>
      intro hEq
      exact List.cons_ne_nil _ _ (congrArg String.data hEq)

/-- A map by a function that fixes every element is the identity. -/
theorem map_fixed_eq_self {α : Type} (f : α → α) (l : List α)
    (h : ∀ a ∈ l, f a = a) : l.map f = l := by
  induction l with
  | nil => rfl
  | cons a t ih =>
    rw [List.map_cons, h a (by simp), ih (fun b hb => h b (by simp [hb]))]

/-- Membership in the deduplicated list implies membership in the input
(for any seen-set). -/
theorem dedupFirst_go_subset (seen : List (Option Date × String × Option Rat))
    (l : List Tx) (t : Tx) (h : t ∈ dedupFirst.go seen l) : t ∈ l := by
  induction l generalizing seen with
  | nil => simpa [dedupFirst.go] using h
  | cons a rest ih =>
    unfold dedupFirst.go at h
    by_cases hk : dedupKey a ∈ seen
    · rw [if_pos hk] at h
      exact List.mem_cons_of_mem a (ih _ h)
    · rw [if_neg hk] at h
      rcases List.mem_cons.mp h with h1 | h2
      · exact h1 ▸ List.mem_cons_self a rest
      · exact List.mem_cons_of_mem a (ih _ h2)

/-- Deduplication keeps at most the input length. -/
theorem dedupFirst_go_length_le
    (seen : List (Option Date × String × Option Rat)) (l : List Tx) :
    (dedupFirst.go seen l).length ≤ l.length := by
  induction l generalizing seen with
  | nil => simp [dedupFirst.go]
  | cons a rest ih =>
    unfold dedupFirst.go
    by_cases hk : dedupKey a ∈ seen
    · rw [if_pos hk]
      have := ih seen
      simp only [List.length_cons]
      omega
    · rw [if_neg hk]
      simp only [List.length_cons]
      have := ih (dedupKey a :: seen)
      omega

/-- The deduplicated list has pairwise-distinct keys, none in seen. -/
theorem dedupFirst_go_pairwise
    (seen : List (Option Date × String × Option Rat)) (l : List Tx) :
    (dedupFirst.go seen l).Pairwise keyNe ∧
      ∀ t ∈ dedupFirst.go seen l, dedupKey t ∉ seen := by
  induction l generalizing seen with
  | nil => simp [dedupFirst.go]
  | cons a rest ih =>
    unfold dedupFirst.go
    by_cases hk : dedupKey a ∈ seen
    · rw [if_pos hk]
      exact ih seen
    · rw [if_neg hk]
      obtain ⟨hpw, hseen⟩ := ih (dedupKey a :: seen)
      refine ⟨List.Pairwise.cons ?_ hpw, ?_⟩
      · intro b hb
        have := hseen b hb
        intro hab
        exact this (by rw [← hab]; exact List.mem_cons_self _ _)
      · intro t ht
        rcases List.mem_cons.mp ht with h1 | h2
        · rw [h1]; exact hk
        · have := hseen t h2
          intro hmem
          exact this (List.mem_cons_of_mem _ hmem)

/-- On a list with pairwise-distinct keys avoiding seen, deduplication
is the identity. -/
theorem dedupFirst_go_eq_self
    (seen : List (Option Date × String × Option Rat)) (l : List Tx)
    (hpw : l.Pairwise keyNe) (hs : ∀ t ∈ l, dedupKey t ∉ seen) :
    dedupFirst.go seen l = l := by
  induction l generalizing seen with
  | nil => rfl
  | cons a rest ih =>
    unfold dedupFirst.go
    rw [if_neg (hs a (List.mem_cons_self a rest))]
    congr 1
    apply ih
    · exact (List.pairwise_cons.mp hpw).2
    · intro t ht
      have hts : dedupKey t ∉ seen := hs t (List.mem_cons_of_mem a ht)
      have hta : keyNe a t := (List.pairwise_cons.mp hpw).1 t ht
      intro hmem
      rcases List.mem_cons.mp hmem with h1 | h2
      · exact hta h1.symm
      · exact hts h2

/-- The sort order is total. -/
instance : IsTotal Tx txLe := by
  constructor
  intro a b
  unfold txLe txLeB
  cases ha : a.date with
  | none =>
    cases hb : b.date with
    | none => exact Or.inl rfl
    | some e => exact Or.inr rfl
  | some d =>
    cases hb : b.date with
    | none => exact Or.inl rfl
    | some e =>
      simp only [dateLeB, Bool.or_eq_true, Bool.and_eq_true, decide_eq_true_eq]
      omega

/-- The sort order is transitive. -/
instance : IsTrans Tx txLe := by
  constructor
  intro a b c hab hbc
  unfold txLe txLeB at *
  cases ha : a.date with
  | none =>
    rw [ha] at hab
    cases hb : b.date with
    | none =>
      rw [hb] at hbc
      cases hc : c.date with
      | none => rfl
      | some f => rw [hc] at hbc; exact absurd hbc (by simp)
    | some e => rw [hb] at hab; exact absurd hab (by simp)
  | some d =>
    cases hc : c.date with
    | none => rfl
    | some f =>
      rw [ha] at hab
      rw [hc] at hbc
      cases hb : b.date with
      | none => rw [hb] at hbc; exact absurd hbc (by simp)
      | some e =>
        rw [hb] at hab hbc
        simp only [dateLeB, Bool.or_eq_true, Bool.and_eq_true,
          decide_eq_true_eq] at *
        omega

/-- Recomputing the derived fields is idempotent. -/
theorem addDerived_addDerived (u : Tx) :
    addDerived (addDerived u) = addDerived u := by
  cases u
  simp [addDerived]

/-- Cleaning the description of a row whose description was already
cleaned (then derived) changes nothing. -/
theorem normDescTx_addDerived_normDescTx (t : Tx) :
    normDescTx (addDerived (normDescTx t)) = addDerived (normDescTx t) := by
  cases t
  simp [normDescTx, addDerived, normDescStr_idem]

/-- Every output row of _clean_and_standardize is the derivation of a
description-cleaned input row. -/
theorem mem_cleanAndStandardize (x : List Tx) (r : Tx)
    (h : r ∈ cleanAndStandardize x) :
    ∃ s ∈ x, r = addDerived (normDescTx s) := by
  unfold cleanAndStandardize at h
  obtain ⟨u, hu, hru⟩ := List.mem_map.mp h
  obtain ⟨s, hs, hsu⟩ := List.mem_map.mp hu
  have hs2 : s ∈ dedupFirst x := (List.mem_insertionSort txLe).mp hs
  exact ⟨s, dedupFirst_go_subset [] x s hs2, by rw [← hru, ← hsu]⟩

/-- The output of _clean_and_standardize is sorted by date. -/
theorem cleanAndStandardize_sorted (x : List Tx) :
    (cleanAndStandardize x).Sorted txLe := by
  unfold cleanAndStandardize
  rw [List.map_map]
  exact List.Pairwise.map _ (fun a b hab => hab)
    (List.sorted_insertionSort txLe (dedupFirst x))

/-- When the input descriptions are already clean, the output of
_clean_and_standardize has pairwise-distinct (date, description,
amount) keys. -/
theorem cleanAndStandardize_pairwise (x : List Tx)
    (hx : ∀ t ∈ x, normDescTx t = t) :
    (cleanAndStandardize x).Pairwise keyNe := by
  unfold cleanAndStandardize
  have h1 : (dedupFirst x).Pairwise keyNe := (dedupFirst_go_pairwise [] x).1
  have h2 : (List.insertionSort txLe (dedupFirst x)).Pairwise keyNe :=
    ((List.perm_insertionSort txLe (dedupFirst x)).pairwise_iff
      (fun h => Ne.symm h)).mpr h1
  rw [map_fixed_eq_self normDescTx (List.insertionSort txLe (dedupFirst x))
    (fun a ha =>
      hx a (dedupFirst_go_subset [] x a ((List.mem_insertionSort txLe).mp ha)))]
  exact List.Pairwise.map _ (fun a b hab => hab) h2

/-- Every output row of _clean_and_standardize is a fixed point of both
description cleaning and derivation. -/
theorem cleanAndStandardize_fixed (x : List Tx) (r : Tx)
    (h : r ∈ cleanAndStandardize x) :
    normDescTx r = r ∧ addDerived r = r := by
  obtain ⟨s, _, rfl⟩ := mem_cleanAndStandardize x r h
  exact ⟨normDescTx_addDerived_normDescTx s, addDerived_addDerived _⟩

/-- _clean_and_standardize is the identity on key-distinct, sorted
lists of fixed rows. -/
theorem cleanAndStandardize_eq_self (y : List Tx)
    (hpw : y.Pairwise keyNe) (hsort : y.Sorted txLe)
    (hfix : ∀ t ∈ y, normDescTx t = t ∧ addDerived t = t) :
    cleanAndStandardize y = y := by
  unfold cleanAndStandardize
  rw [show dedupFirst y = y from
    dedupFirst_go_eq_self [] y hpw (by simp)]
  rw [List.Sorted.insertionSort_eq hsort]
  rw [map_fixed_eq_self normDescTx y (fun a ha => (hfix a ha).1)]
  rw [map_fixed_eq_self addDerived y (fun a ha => (hfix a ha).2)]

/-- One application of _clean_and_standardize never grows the row set. -/
theorem cleanAndStandardize_length_le (z : List Tx) :
    (cleanAndStandardize z).length ≤ z.length := by
  unfold cleanAndStandardize
  simp only [List.length_map, List.length_insertionSort]
  exact dedupFirst_go_length_le [] z

/-- Claim C1 (code bug): the spec scenario says the query "over $100"
on the store {-150.00, -50.00, 200.00} returns the -150.00 and 200.00
transactions (absolute amount at least 100).  The code extracts
amount_min = 100, but _build_where_clause turns it into the native
index predicate amount >= 100 on the SIGNED amount, which excludes
-150.00 before the abs-based deferred filter of _apply_query_filters
can see it: the search returns only the 200.00 transaction, with no
error signal. -/
theorem c1_native_signed_filter_drops_negatives :
    (extractQueryFilters ⟨2026, 10, 12⟩ "over $100").amountMin = some 100 ∧
    ((hybridSearch c1Store "over $100" ⟨2026, 10, 12⟩ 20).rows.map
      (fun p => p.1.amount)) = [200] ∧
    (hybridSearch c1Store "over $100" ⟨2026, 10, 12⟩ 20).errored = false := by
  refine ⟨by decide, by decide, by decide⟩

/-- Claim C2 (code bug): for the header ["Posting Date", "Memo",
"Debit Amt", "Credit Amt"], the debit/credit reconciliation branch of
_standardize_columns never fires (it requires columns named exactly
"debit" and "credit"); instead "debit amt" is selected as the single
amount column via the substring pattern "debit", so a row with
Debit Amt = 45.00 and Credit Amt = 0 is admitted with amount = +45.00,
not the -45.00 the claim (and the code's own "Credits positive, debits
negative" comment) requires. -/
theorem c2_debit_amt_header_yields_positive_amount :
    standardizeColumns c2Table "chase.csv" =
      Except.ok [{ date := some ⟨2024, 1, 15⟩, description := "COFFEE SHOP",
                   amount := some 45, sourceFile := "chase.csv" }] := by decide

/-- Claim C5, counterexample: on a batch whose rows share date and
amount and whose descriptions differ only in case, one run of
_clean_and_standardize leaves two identical rows (dedup runs BEFORE
uppercasing), and a second run removes one of them, so the step is not
idempotent on its own output. -/
theorem c5_counterexample_second_run_removes_row :
    cleanAndStandardize (cleanAndStandardize c5Batch) ≠
      cleanAndStandardize c5Batch ∧
    (cleanAndStandardize c5Batch).length = 2 ∧
    (cleanAndStandardize (cleanAndStandardize c5Batch)).length = 1 := by
  refine ⟨by decide, by decide, by decide⟩

/-- Claim C6, counterexample: a row whose description cell is null is
NOT dropped: astype(str) renders the null as the literal string "nan",
which survives the non-empty check, so the row is admitted with
description "nan" (the claim asserts that such a row is dropped). -/
theorem c6_counterexample_null_description_admitted :
    standardizeColumns c6Table "f.csv" =
      Except.ok [{ date := some ⟨2024, 1, 15⟩, description := "nan",
                   amount := some 5, sourceFile := "f.csv" }] := by decide

/-- If no pattern is a substring of any column, the pattern scan finds
no column. -/
theorem findColumn_eq_none (cols : List String) (pats : List String)
    (h : ∀ c ∈ cols, ∀ p ∈ pats, pyContains c p = false) :
    findColumn cols pats = none := by
  induction pats with
  | nil => rfl
  | cons p ps ih =>
    have hfind : cols.find? (fun c => pyContains c p) = none := by
      rw [List.find?_eq_none]
      intro c hc
      simp [h c hc p (by simp)]
    simp only [findColumn, hfind]
    exact ih (fun c hc q hq => h c hc q (by simp [hq]))

/-- Claim C4 (confirmed): whenever no column name of the (lowercased,
trimmed) header contains any description pattern, _standardize_columns
fails with the missing-columns error, and "description" is among the
missing names — whatever the other columns are. -/
theorem c4_missing_description_column_error (t : RawTable) (filename : String)
    (h : ∀ c ∈ normHeader t.cols, ∀ p ∈ descPats, pyContains c p = false) :
    ∃ missing, standardizeColumns t filename = Except.error missing ∧
      "description" ∈ missing := by
  have hdesc : findColumn (normHeader t.cols) descPats = none :=
    findColumn_eq_none _ _ h
  unfold standardizeColumns
  simp only [hdesc]
  cases hdate : findColumn (normHeader t.cols) datePats <;>
    cases hamt : findColumn (normHeader t.cols) amountPats <;>
    exact ⟨_, rfl, by simp⟩

/-- The date phase never writes the amount fields. -/
theorem datePhase_amount (now : Date) (ql : List Char) (f : Filters) :
    (datePhase now ql f).amountMin = f.amountMin ∧
    (datePhase now ql f).amountMax = f.amountMax := by
  unfold datePhase
  split
  · exact ⟨rfl, rfl⟩
  · split
    · exact ⟨rfl, rfl⟩
    · split
      · exact ⟨rfl, rfl⟩
      · split
        · exact ⟨rfl, rfl⟩
        · exact ⟨rfl, rfl⟩

/-- The type phase never writes the amount fields. -/
theorem typePhase_amount (ql : List Char) (f : Filters) :
    (typePhase ql f).amountMin = f.amountMin ∧
    (typePhase ql f).amountMax = f.amountMax := by
  unfold typePhase
  split
  · exact ⟨rfl, rfl⟩
  · split
    · exact ⟨rfl, rfl⟩
    · exact ⟨rfl, rfl⟩

/-- Claim C7 (confirmed): the amount-pattern loop breaks at the first
match, so for EVERY query the extracted constraint set carries at most
one amount bound — never both amount_min and amount_max, even when the
query contains phrases from both keyword groups. -/
theorem c7_at_most_one_amount_bound (now : Date) (q : String) :
    (extractQueryFilters now q).amountMin = none ∨
    (extractQueryFilters now q).amountMax = none := by
  unfold extractQueryFilters
  set ql := (pyLower q).data with hql
  obtain ⟨h1, h2⟩ := typePhase_amount ql (datePhase now ql (amountPhase ql))
  obtain ⟨h3, h4⟩ := datePhase_amount now ql (amountPhase ql)
  rw [h1, h2, h3, h4]
  unfold amountPhase
  rcases firstAmountMatch ql amountPatterns with _ | ⟨k, v⟩
  · exact Or.inl rfl
  · cases k
    · exact Or.inr rfl
    · exact Or.inl rfl

/-- Claim C8 (confirmed): the query "under $20 expenses this month"
extracts all three constraint kinds at once: amount_max = 20, the date
range [first day of the current month, today], and transaction_type
Debit. -/
theorem c8_three_constraint_kinds (now : Date) :
    extractQueryFilters now "under $20 expenses this month" =
      { amountMax := some 20,
        dateStart := some ⟨now.year, now.month, 1⟩,
        dateEnd := some now,
        txType := some "Debit" } := by
  rfl

/-- Claim C9 (confirmed): a failed index-side query surfaces as an empty
result together with an error signal (not a crash), while an empty
index / no hits yields an empty result as a plain success with no error
signal. -/
theorem c9_empty_success_error_signalled (q : String) (cf : Option Filters)
    (now : Date) (e : String) (r : RawResults) :
    search true (Except.error e) q cf now = ⟨[], true⟩ ∧
    ((r.ids = [] ∨ r.ids.headD [] = []) →
      search true (Except.ok r) q cf now = ⟨[], false⟩) := by
  constructor
  · rfl
  · intro h
    unfold search
    rw [if_neg (by simp)]
    simp only
    rw [if_pos h]

/-- Witness for C9 at a concrete failing call and a concrete empty
result set. -/
theorem c9_witness :
    search true (Except.error "index fault") "coffee" none ⟨2026, 10, 12⟩ =
      ⟨[], true⟩ ∧
    search true (Except.ok ⟨[], [], none⟩) "coffee" none ⟨2026, 10, 12⟩ =
      ⟨[], false⟩ := by
  refine ⟨(c9_empty_success_error_signalled "coffee" none ⟨2026, 10, 12⟩
    "index fault" ⟨[], [], none⟩).1,
    (c9_empty_success_error_signalled "coffee" none ⟨2026, 10, 12⟩
    "index fault" ⟨[], [], none⟩).2 (Or.inl rfl)⟩

/-- Claim C6, amended (corrected): a row whose description cell is null
is rendered as the literal string "nan" by astype(str) and is therefore
NOT dropped for its description: it is admitted exactly when its date
and amount parse, silently, like every other row. -/
theorem c6_amended_null_description_is_nan (cols : List String)
    (dc sc ac : String) (useDC : Bool) (fn : String)
    (row : List (Option String)) (h : getCell cols row sc = none) :
    (rowToTx cols dc sc ac useDC fn row).description = "nan" ∧
    admitTx (rowToTx cols dc sc ac useDC fn row) =
      ((rowToTx cols dc sc ac useDC fn row).date.isSome &&
       (rowToTx cols dc sc ac useDC fn row).amount.isSome) := by
  have hdesc : (rowToTx cols dc sc ac useDC fn row).description = "nan" := by
    simp [rowToTx, h, astypeStr]
  refine ⟨hdesc, ?_⟩
  unfold admitTx
  rw [hdesc]
  have : decide (pyStrip "nan" ≠ "") = true := by decide
  rw [this, Bool.and_true]

/-- Witness for the amended C6 at the concrete null-description row of
the counterexample table. -/
theorem c6_amended_witness :
    (rowToTx ["date", "description", "amount"] "date" "description" "amount"
      false "f.csv" [some "2024-01-15", none, some "5.00"]).description =
      "nan" ∧
    admitTx (rowToTx ["date", "description", "amount"] "date" "description"
      "amount" false "f.csv" [some "2024-01-15", none, some "5.00"]) =
      ((rowToTx ["date", "description", "amount"] "date" "description"
        "amount" false "f.csv"
        [some "2024-01-15", none, some "5.00"]).date.isSome &&
       (rowToTx ["date", "description", "amount"] "date" "description"
        "amount" false "f.csv"
        [some "2024-01-15", none, some "5.00"]).amount.isSome) :=
  c6_amended_null_description_is_nan _ _ _ _ _ _ _ (by decide)

/-- Every row of a successful _standardize_columns output passed the
admission predicate. -/
theorem standardize_ok_admit (t : RawTable) (fn : String) (rows : List Tx)
    (h : standardizeColumns t fn = Except.ok rows) :
    ∀ s ∈ rows, admitTx s = true := by
  unfold standardizeColumns at h
  rcases h1 : findColumn (normHeader t.cols) datePats with _ | dc <;>
    rcases h2 : findColumn (normHeader t.cols) descPats with _ | sc <;>
    rcases h3 : findColumn (normHeader t.cols) amountPats with _ | ac <;>
    simp only [h1, h2, h3] at h
  · exact absurd h (by simp)
  · exact absurd h (by simp)
  · exact absurd h (by simp)
  · exact absurd h (by simp)
  · exact absurd h (by simp)
  · exact absurd h (by simp)
  · exact absurd h (by simp)
  · rw [Except.ok.injEq] at h
    subst h
    intro s hs
    exact (List.mem_filter.mp hs).2

/-- Claim C3 (confirmed): every row admitted by normalization (running
_standardize_columns and then _clean_and_standardize) has a non-null
date, a non-null amount, a non-empty description, and a
transaction_type that is Credit exactly when amount > 0 and Debit
otherwise (amount == 0 included). -/
theorem c3_admitted_row_invariants (t : RawTable) (fn : String)
    (rows : List Tx) (r : Tx) (hok : standardizeColumns t fn = Except.ok rows)
    (hr : r ∈ cleanAndStandardize rows) :
    r.date.isSome = true ∧ r.amount.isSome = true ∧ r.description ≠ "" ∧
    (r.txType = "Credit" ↔ 0 < r.amount.getD 0) ∧
    (r.txType = "Debit" ↔ ¬ 0 < r.amount.getD 0) := by
  obtain ⟨s, hs, rfl⟩ := mem_cleanAndStandardize rows r hr
  have hadmit := standardize_ok_admit t fn rows hok s hs
  unfold admitTx at hadmit
  simp only [Bool.and_eq_true, decide_eq_true_eq] at hadmit
  obtain ⟨⟨hdate, hamt⟩, hdesc⟩ := hadmit
  have hdate2 : (addDerived (normDescTx s)).date = s.date := rfl
  have hamt2 : (addDerived (normDescTx s)).amount = s.amount := rfl
  refine ⟨by rw [hdate2]; exact hdate, by rw [hamt2]; exact hamt, ?_, ?_, ?_⟩
  · show normDescStr s.description ≠ ""
    exact pyUpper_ne_empty _ hdesc
  · show (if 0 < s.amount.getD 0 then "Credit" else "Debit") = "Credit" ↔
      0 < (addDerived (normDescTx s)).amount.getD 0
    rw [hamt2]
    by_cases hpos : 0 < s.amount.getD 0
    · simp [hpos]
    · simp [hpos]
  · show (if 0 < s.amount.getD 0 then "Credit" else "Debit") = "Debit" ↔
      ¬ 0 < (addDerived (normDescTx s)).amount.getD 0
    rw [hamt2]
    by_cases hpos : 0 < s.amount.getD 0
    · simp [hpos]
    · simp [hpos]

/-- Witness for C3 at a concrete one-row spreadsheet. -/
theorem c3_witness :
    c3Row.date.isSome = true ∧ c3Row.amount.isSome = true ∧
    c3Row.description ≠ "" ∧
    (c3Row.txType = "Credit" ↔ 0 < c3Row.amount.getD 0) ∧
    (c3Row.txType = "Debit" ↔ ¬ 0 < c3Row.amount.getD 0) :=
  c3_admitted_row_invariants c3Table "w.csv" [c3RowRaw] c3Row
    (by decide) (by decide)

/-- Witness for C4 at a concrete header with no description-like
column. -/
theorem c4_witness :
    ∃ missing,
      standardizeColumns ⟨["date", "amount"], []⟩ "w.csv" =
        Except.error missing ∧ "description" ∈ missing :=
  c4_missing_description_column_error ⟨["date", "amount"], []⟩ "w.csv"
    (by decide)

/-- Claim C5, amended (corrected): re-running _clean_and_standardize on
its own output never grows the row set, and the step stabilizes from
the second application on: a third application changes nothing.  (One
application is not a fixed point, because deduplication runs before the
description normalization that can create new duplicate keys.) -/
theorem c5_amended_stabilizes_after_second_run (rows : List Tx) :
    cleanAndStandardize (cleanAndStandardize (cleanAndStandardize rows)) =
      cleanAndStandardize (cleanAndStandardize rows) ∧
    (cleanAndStandardize (cleanAndStandardize rows)).length ≤
      (cleanAndStandardize rows).length := by
  constructor
  · apply cleanAndStandardize_eq_self
    · apply cleanAndStandardize_pairwise
      intro t ht
      exact (cleanAndStandardize_fixed rows t ht).1
    · exact cleanAndStandardize_sorted _
    · intro t ht
      exact cleanAndStandardize_fixed _ t ht
  · exact cleanAndStandardize_length_le _

/-- Claim C10 (confirmed): index_transactions on an empty batch replaces
the in-memory store with the empty batch and returns False before any
index operation, leaving the previous documents in the index: after the
call the store is empty while the index still holds the old batch, so
the two can disagree. -/
theorem c10_empty_batch_clears_store_keeps_index (s : RAGState) :
    indexTransactions s [] = ({ s with store := [] }, false) := rfl

end BankRag
